import Mathlib

/-!
Verification development for the range-level execution core of a distributed
key-value store (storage/range.go and storage/config.go): keys, the storage
engine contract, the response cache, the read-timestamp cache, the command
dispatcher and the individual operation handlers, shallowly embedded as
executable Lean definitions, followed by theorems about the embedded code.
-/

namespace Storage

/-! ## Keys: opaque byte sequences with the lexicographic order of bytes.Compare -/

abbrev Key := List Nat

/-- `a.Less b` for keys: lexicographic order on byte sequences. -/
def keyLt : Key → Key → Bool
  | [], [] => false
  | [], _ :: _ => true
  | _ :: _, [] => false
  | a :: as, b :: bs => if a < b then true else if b < a then false else keyLt as bs

/-- bytes.HasPrefix s p. -/
def bytesHasPrefix : Key → Key → Bool
  | _, [] => true
  | [], _ :: _ => false
  | a :: as, b :: bs => a == b && bytesHasPrefix as bs

/-- bytes.TrimPrefix s p. -/
def bytesTrimPrefix (s p : Key) : Key :=
  if bytesHasPrefix s p then s.drop p.length else s

def strBytes (s : String) : List Nat := s.toList.map Char.toNat

/-- Modelled from the spec and the source comment on InternalRangeLookup:
metadata keys have the form "\x00\x00meta[12]<encoded key>", so the shared
metadata key prefix is "\x00\x00meta" (keys.go is not part of the staged
sources). -/
def KeyMetaPrefix : Key := [0, 0, 109, 101, 116, 97]

/-- Modelled from the spec: the level-1 metadata key prefix "\x00\x00meta1". -/
def KeyMeta1Prefix : Key := KeyMetaPrefix ++ [49]

/-- Modelled from the spec: KeyMin, the smallest possible key. -/
def KeyMin : Key := []

/-- Modelled from the spec: NextKey returns the key immediately after the
given key in the ordering (the key with a zero byte appended). -/
def NextKey (k : Key) : Key := k ++ [0]

/-- Modelled from the spec (§4.6): the reserved accounting configuration key
prefix "\x00acct" (keys.go is not part of the staged sources). -/
def KeyConfigAccountingPrefix : Key := [0, 97, 99, 99, 116]

/-- Modelled from the spec (§4.6): the reserved permission configuration key
prefix "\x00perm". -/
def KeyConfigPermissionPrefix : Key := [0, 112, 101, 114, 109]

/-- Modelled from the spec (§4.6): the reserved zone configuration key
prefix "\x00zone". -/
def KeyConfigZonePrefix : Key := [0, 122, 111, 110, 101]

/-- Modelled from the spec: PrefixEndKey returns the key immediately after
every key carrying the given prefix: the prefix with its last byte
incremented. -/
def PrefixEndKey : Key → Key
  | [] => []
  | [a] => [a + 1]
  | a :: b :: rest => a :: PrefixEndKey (b :: rest)

/-! ## Timestamps (hlc package is not part of the staged sources) -/

/-- Modelled from the spec (§3): a logical clock value with a physical
component and a logical tie-breaking counter, totally ordered. -/
structure Timestamp where
  WallTime : Int
  Logical : Int
deriving DecidableEq

/-- Modelled from the spec: the total order on timestamps, physical component
first, logical counter as tie-break. -/
def Timestamp.Less (a b : Timestamp) : Bool :=
  a.WallTime < b.WallTime || (a.WallTime == b.WallTime && a.Logical < b.Logical)

def tsZero : Timestamp := ⟨0, 0⟩

def tsMax (a b : Timestamp) : Timestamp := if a.Less b then b else a

/-! ## The storage engine contract (spec §6)

The engine is an external collaborator consumed through get/put/scan/clear.
It is modelled as an association list of entries plus one fault flag per
operation kind, since the spec allows every engine call to fail with an
engine-level error that the core propagates verbatim.  A stored value is an
`Option (List Nat)`: Go byte slices distinguish nil from empty, and a nil
result from get means the key is absent. -/

abbrev EVal := Option (List Nat)

structure Engine where
  entries : List (Key × EVal)
  getErr : Option String
  putErr : Option String
  scanErr : Option String
  clearErr : Option String
deriving DecidableEq

def engineLookup : List (Key × EVal) → Key → Option EVal
  | [], _ => none
  | (k, v) :: rest, key => if k == key then some v else engineLookup rest key

/-- Modelled from the spec (§6): `get(key) -> value|absent`. -/
def Engine.get (e : Engine) (key : Key) : Except String EVal :=
  match e.getErr with
  | some msg => .error msg
  | none => .ok ((engineLookup e.entries key).join)

def insertEntry : List (Key × EVal) → Key → EVal → List (Key × EVal)
  | [], key, v => [(key, v)]
  | (k, w) :: rest, key, v =>
    if k == key then (key, v) :: rest
    else if keyLt key k then (key, v) :: (k, w) :: rest
    else (k, w) :: insertEntry rest key v

/-- Modelled from the spec (§6): `put(key, value)`. -/
def Engine.put (e : Engine) (key : Key) (v : EVal) : Except String Engine :=
  match e.putErr with
  | some msg => .error msg
  | none => .ok { e with entries := insertEntry e.entries key v }

/-- Modelled from the spec (§6): `clear(key)`. -/
def Engine.clear (e : Engine) (key : Key) : Except String Engine :=
  match e.clearErr with
  | some msg => .error msg
  | none => .ok { e with entries := e.entries.filter (fun kv => kv.1 != key) }

def inHalfOpen (key s e : Key) : Bool := !keyLt key s && keyLt key e

/-- Modelled from the spec (§6): `scan(start, end, maxResults)` returns the
ordered entries with start ≤ key < end; a maxResults of zero (or below)
imposes no limit. -/
def Engine.scan (eng : Engine) (s e : Key) (maxResults : Int) :
    Except String (List (Key × EVal)) :=
  match eng.scanErr with
  | some msg => .error msg
  | none =>
    let hits := eng.entries.filter (fun kv => inHalfOpen kv.1 s e)
    .ok (if maxResults ≤ 0 then hits else hits.take maxResults.toNat)

/-- Modelled from the spec: a scan whose end key is KeyMax, the reserved
maximum key, sees every entry at or after `s`. -/
def Engine.scanToMax (eng : Engine) (s : Key) (maxResults : Int) :
    Except String (List (Key × EVal)) :=
  match eng.scanErr with
  | some msg => .error msg
  | none =>
    let hits := eng.entries.filter (fun kv => !keyLt kv.1 s)
    .ok (if maxResults ≤ 0 then hits else hits.take maxResults.toNat)

/-! ## Data model from storage/config.go -/

abbrev Attributes := List String

structure Replica where
  NodeID : Int
  StoreID : Int
  RangeID : Int
  Attrs : Attributes
deriving DecidableEq

structure RangeDescriptor where
  StartKey : Key
  EndKey : Key
  Replicas : List Replica
deriving DecidableEq

/-- RangeDescriptor.ContainsKey: `!key.Less(r.StartKey) && key.Less(r.EndKey)`. -/
def RangeDescriptor.ContainsKey (r : RangeDescriptor) (key : Key) : Bool :=
  !keyLt key r.StartKey && keyLt key r.EndKey

/-- RangeDescriptor.ContainsKeyRange.  The source substitutes `end = start`
when `end` is empty, panics when `end.Less(start)` (modelled as `none`), and
otherwise returns `!start.Less(r.StartKey) && !r.EndKey.Less(end)`. -/
def RangeDescriptor.ContainsKeyRange (r : RangeDescriptor) (start stop : Key) :
    Option Bool :=
  let stop' := if stop.length == 0 then start else stop
  if keyLt stop' start then none
  else some (!keyLt start r.StartKey && !keyLt r.EndKey stop')

structure AcctConfig where
  ClusterID : String
deriving DecidableEq

structure PermConfig where
  Read : List String
  Write : List String
deriving DecidableEq

structure ZoneConfig where
  Replicas : List Attributes
  RangeMinBytes : Int
  RangeMaxBytes : Int
deriving DecidableEq

structure RangeMetadata where
  Desc : RangeDescriptor
  ClusterID : String
  RangeID : Int
deriving DecidableEq

/-! ## An executable stand-in for gob encoding

gob encoding is external (encoding/gob); it is modelled by an explicit
injective byte layout with a matching executable decoder, so that decoding
succeeds exactly on values laid out as an encoding. -/

def encInt (i : Int) : List Nat := [if i < 0 then 1 else 0, i.natAbs]

def decInt : List Nat → Option (Int × List Nat)
  | 0 :: m :: rest => some ((m : Int), rest)
  | 1 :: m :: rest => some (-(m : Int), rest)
  | _ => none

def encBytes (b : List Nat) : List Nat := b.length :: b

def decBytes : List Nat → Option (List Nat × List Nat)
  | n :: rest => if n ≤ rest.length then some (rest.take n, rest.drop n) else none
  | [] => none

def encStr (s : String) : List Nat := encBytes (strBytes s)

def decStr (l : List Nat) : Option (String × List Nat) :=
  match decBytes l with
  | some (bs, rest) => some (String.mk (bs.map Char.ofNat), rest)
  | none => none

def encList {α : Type} (enc : α → List Nat) (l : List α) : List Nat :=
  l.length :: (l.map enc).flatten

def decListAux {α : Type} (dec : List Nat → Option (α × List Nat)) :
    Nat → List Nat → Option (List α × List Nat)
  | 0, rest => some ([], rest)
  | n + 1, l =>
    match dec l with
    | some (a, rest) =>
      match decListAux dec n rest with
      | some (as, rest') => some (a :: as, rest')
      | none => none
    | none => none

def decList {α : Type} (dec : List Nat → Option (α × List Nat)) :
    List Nat → Option (List α × List Nat)
  | n :: rest => decListAux dec n rest
  | [] => none

def encReplica (r : Replica) : List Nat :=
  encInt r.NodeID ++ encInt r.StoreID ++ encInt r.RangeID ++ encList encStr r.Attrs

def decReplica (l : List Nat) : Option (Replica × List Nat) := do
  let (n, l1) ← decInt l
  let (s, l2) ← decInt l1
  let (g, l3) ← decInt l2
  let (attrs, l4) ← decList decStr l3
  some (⟨n, s, g, attrs⟩, l4)

def encRangeDescriptor (d : RangeDescriptor) : List Nat :=
  encBytes d.StartKey ++ encBytes d.EndKey ++ encList encReplica d.Replicas

def decRangeDescriptor (l : List Nat) : Option (RangeDescriptor × List Nat) := do
  let (s, l1) ← decBytes l
  let (e, l2) ← decBytes l1
  let (rs, l3) ← decList decReplica l2
  some (⟨s, e, rs⟩, l3)

/-- Modelled from the spec: gob decoding of a RangeDescriptor value, which
succeeds exactly on fully consumed descriptor encodings. -/
def gobDecodeRangeDescriptor (v : List Nat) : Option RangeDescriptor :=
  match decRangeDescriptor v with
  | some (d, []) => some d
  | _ => none

inductive ConfigUnion where
  | acct (c : AcctConfig)
  | perm (c : PermConfig)
  | zone (c : ZoneConfig)
deriving DecidableEq

def encAcctConfig (c : AcctConfig) : List Nat := encStr c.ClusterID

/-- Modelled from the spec: gob decoding of an accounting config value. -/
def decodeAcctConfig (v : List Nat) : Option ConfigUnion :=
  match decStr v with
  | some (cid, []) => some (.acct ⟨cid⟩)
  | _ => none

def encPermConfig (c : PermConfig) : List Nat :=
  encList encStr c.Read ++ encList encStr c.Write

/-- Modelled from the spec: gob decoding of a permission config value. -/
def decodePermConfig (v : List Nat) : Option ConfigUnion :=
  match decList decStr v with
  | some (r, rest) =>
    match decList decStr rest with
    | some (w, []) => some (.perm ⟨r, w⟩)
    | _ => none
  | _ => none

def encZoneConfig (c : ZoneConfig) : List Nat :=
  encList (encList encStr) c.Replicas ++ encInt c.RangeMinBytes ++ encInt c.RangeMaxBytes

/-- Modelled from the spec: gob decoding of a zone config value. -/
def decodeZoneConfig (v : List Nat) : Option ConfigUnion :=
  match decList (decList decStr) v with
  | some (rs, rest) =>
    match decInt rest with
    | some (lo, rest') =>
      match decInt rest' with
      | some (hi, []) => some (.zone ⟨rs, lo, hi⟩)
      | _ => none
    | _ => none
  | _ => none

/-! ## Errors, gossip and the range's execution state -/

/-- The error kinds the range core produces (util.Errorf messages, engine
errors, and the explicit "unimplemented" placeholder). -/
inductive Err where
  | engineErr (msg : String)
  | alreadyExists (key : Key)
  | doesNotExist (key : Key)
  | condFailed (key : Key)
  | unimplemented
  | invalidMetaKey (key : Key)
  | keyOutsideRange (rangeID : Int)
  | keyNotFound (rangeID : Int)
  | noRangeFound (key : Key)
  | decodeFailed
  | badIncrementValue
deriving DecidableEq

structure PrefixConfig where
  Prefix : Key
  Config : ConfigUnion
deriving DecidableEq

abbrev PrefixConfigMap := List PrefixConfig

def insertPrefixConfig (pc : PrefixConfig) : PrefixConfigMap → PrefixConfigMap
  | [] => [pc]
  | q :: rest =>
    if keyLt q.Prefix pc.Prefix then q :: insertPrefixConfig pc rest
    else pc :: q :: rest

/-- Modelled from the spec (§4.6): assembles an ordered, prefix-keyed
configuration map from the decoded entries. -/
def NewPrefixConfigMap (l : List PrefixConfig) : PrefixConfigMap :=
  l.foldl (fun m pc => insertPrefixConfig pc m) []

/-- Modelled from the spec (§6): the metadata-dissemination collaborator,
with a published-info log and a fault flag (addInfo may fail); `isNil`
models a range constructed without a gossip handle. -/
structure GossipState where
  isNil : Bool
  addErr : Option String
  log : List (String × PrefixConfigMap)
deriving DecidableEq

/-- Modelled from the spec (§6): `addInfo(key, value, ttl)` publishes the
configuration map under the gossip key. -/
def GossipState.AddInfo (g : GossipState) (key : String) (m : PrefixConfigMap) :
    Except String GossipState :=
  match g.addErr with
  | some msg => .error msg
  | none => .ok { g with log := g.log ++ [(key, m)] }

/-- Modelled from the spec: the gossip keys of the three configuration maps. -/
def KeyConfigAccounting : String := "config-acct"

def KeyConfigPermission : String := "config-perm"

def KeyConfigZone : String := "config-zone"

/-- The dirty flags of the package-level configPrefixes table (range.go:53-62),
one per tracked configuration prefix (accounting, permission, zone); all
three are initialized true.  The program's only two assignments to a flag —
`cp.dirty = true` in internalPut (range.go:554) and `cp.dirty = false` in
maybeGossipConfigs (range.go:404) — act on the for-range loop's
per-iteration copy of the slice element (configPrefixes is a slice of
struct values), so after initialization the table is never written: the
flags are only ever read. -/
structure ConfigDirty where
  acct : Bool
  perm : Bool
  zone : Bool
deriving DecidableEq

/-- The state the operation handlers touch: range metadata, the engine, the
gossip collaborator and the configPrefixes dirty flags. -/
structure ExecState where
  Meta : RangeMetadata
  engine : Engine
  gossip : GossipState
  dirty : ConfigDirty
deriving DecidableEq

/-- Range.IsLeader: always true in the reference. -/
def IsLeader : Bool := true

/-- Range.ContainsKey delegates to the descriptor. -/
def ExecState.ContainsKey (r : ExecState) (key : Key) : Bool :=
  r.Meta.Desc.ContainsKey key

def loadConfigEntries (dec : List Nat → Option ConfigUnion) (keyPfx : Key) :
    List (Key × EVal) → Option (List PrefixConfig)
  | [] => some []
  | kv :: rest =>
    match dec (kv.2.getD []) with
    | none => none
    | some cfg =>
      match loadConfigEntries dec keyPfx rest with
      | none => none
      | some cfgs => some (⟨bytesTrimPrefix kv.1 keyPfx, cfg⟩ :: cfgs)

/-- Range.loadConfigMap: scan the entries under the prefix, gob-decode each
into the prefix's config type, and assemble the ordered map; a scan or a
decode failure is an error. -/
def loadConfigMap (eng : Engine) (keyPfx : Key) (dec : List Nat → Option ConfigUnion) :
    Except String PrefixConfigMap :=
  match eng.scan keyPfx (PrefixEndKey keyPfx) 0 with
  | .error e => .error e
  | .ok kvs =>
    match loadConfigEntries dec keyPfx kvs with
    | none => .error "unable to unmarshal config"
    | some cfgs => .ok (NewPrefixConfigMap cfgs)

/-- One entry of the maybeGossipConfigs loop (range.go:392-406): when the
entry's dirty flag (as read from the table) is set and the prefix is
contained in the range, load the config map and gossip it; a load or gossip
failure is logged and skipped.  On the success path the source assigns
`cp.dirty = false` (range.go:404), but `cp` is the loop's copy of the
configPrefixes element, so the table's flag is never cleared: the gossip
publish is the only effect that escapes the iteration. -/
def gossipOne (r : ExecState) (isDirty : Bool) (keyPfx : Key) (gossipKey : String)
    (dec : List Nat → Option ConfigUnion) : ExecState :=
  if isDirty && r.ContainsKey keyPfx then
    match loadConfigMap r.engine keyPfx dec with
    | .error _ => r
    | .ok configMap =>
      match r.gossip.AddInfo gossipKey configMap with
      | .error _ => r
      | .ok g' => { r with gossip := g' }
  else r

/-- Range.maybeGossipConfigs (range.go:390-408): when the range has a gossip
handle and is the leader, walk the configPrefixes table in order
(accounting, permission, zone), reading each entry's dirty flag from the
table.  Since neither this loop's `cp.dirty = false` nor internalPut's
`cp.dirty = true` ever reaches the table (both write range-loop copies),
the table's flags keep the value they were initialized with — true — for
the whole run, so every pass re-gossips every contained prefix. -/
def maybeGossipConfigs (r : ExecState) : ExecState :=
  if !r.gossip.isNil && IsLeader then
    let r1 := gossipOne r r.dirty.acct KeyConfigAccountingPrefix
        KeyConfigAccounting decodeAcctConfig
    let r2 := gossipOne r1 r1.dirty.perm KeyConfigPermissionPrefix
        KeyConfigPermission decodePermConfig
    gossipOne r2 r2.dirty.zone KeyConfigZonePrefix KeyConfigZone decodeZoneConfig
  else r

/-! ## Requests and replies -/

structure Value where
  Bytes : Option (List Nat)
deriving DecidableEq

/-- Modelled from the spec (§3): an opaque client-supplied unique command
identifier. -/
abbrev ClientCmdID := Nat

structure RequestHeader where
  Timestamp : Timestamp
  CmdID : ClientCmdID
  Key : Key
  EndKey : Storage.Key
deriving DecidableEq

/-- The method-specific argument payloads, a closed variant over the
operation surface. -/
inductive ArgPayload where
  | containsA
  | getA
  | putA (Value : Value)
  | condPutA (ExpValue : Value) (Value : Value)
  | incrementA (Increment : Int)
  | deleteA
  | deleteRangeA
  | scanA (MaxResults : Int)
  | endTransactionA
  | accumulateTSA
  | reapQueueA
  | enqueueUpdateA
  | enqueueMessageA
  | rangeLookupA
deriving DecidableEq

structure Args where
  header : RequestHeader
  payload : ArgPayload
deriving DecidableEq

/-- The method-specific reply payloads. -/
inductive ReplyPayload where
  | containsR (Exists : Bool)
  | getR (Value : Value)
  | putR
  | condPutR (ActualValue : Option Value)
  | incrementR (NewValue : Int)
  | deleteR
  | deleteRangeR
  | scanR (Rows : List (Key × Value))
  | endTransactionR
  | accumulateTSR
  | reapQueueR
  | enqueueUpdateR
  | enqueueMessageR
  | rangeLookupR (Range : RangeDescriptor) (EndKey : Key)
deriving DecidableEq

/-- A reply: the shared Error and Timestamp fields the dispatcher and the
entry points access, plus the method-specific payload. -/
structure Reply where
  Error : Option Err
  Timestamp : Timestamp
  payload : ReplyPayload
deriving DecidableEq

/-- The method name of a payload, as the string constants of the source. -/
def methodOf : ArgPayload → String
  | .containsA => "Contains"
  | .getA => "Get"
  | .putA _ => "Put"
  | .condPutA _ _ => "ConditionalPut"
  | .incrementA _ => "Increment"
  | .deleteA => "Delete"
  | .deleteRangeA => "DeleteRange"
  | .scanA _ => "Scan"
  | .endTransactionA => "EndTransaction"
  | .accumulateTSA => "AccumulateTS"
  | .reapQueueA => "ReapQueue"
  | .enqueueUpdateA => "EnqueueUpdate"
  | .enqueueMessageA => "EnqueueMessage"
  | .rangeLookupA => "InternalRangeLookup"

/-- readMethods: the set of methods which read and return data. -/
def readMethods : List String :=
  ["Contains", "Get", "ConditionalPut", "Increment", "Scan", "ReapQueue",
   "InternalRangeLookup"]

/-- writeMethods: the set of methods which write data. -/
def writeMethods : List String :=
  ["Put", "ConditionalPut", "Increment", "Delete", "DeleteRange",
   "EndTransaction", "AccumulateTS", "ReapQueue", "EnqueueUpdate",
   "EnqueueMessage"]

/-- NeedReadPerm returns true if the method requires read permissions. -/
def NeedReadPerm (method : String) : Bool := readMethods.contains method

/-- NeedWritePerm returns true if the method requires write permissions. -/
def NeedWritePerm (method : String) : Bool := writeMethods.contains method

/-- IsReadOnly returns true if the method only requires read permissions. -/
def IsReadOnly (method : String) : Bool := !NeedWritePerm method

/-- The zero value of a method's reply payload. -/
def zeroPayload : ArgPayload → ReplyPayload
  | .containsA => .containsR false
  | .getA => .getR ⟨none⟩
  | .putA _ => .putR
  | .condPutA _ _ => .condPutR none
  | .incrementA _ => .incrementR 0
  | .deleteA => .deleteR
  | .deleteRangeA => .deleteRangeR
  | .scanA _ => .scanR []
  | .endTransactionA => .endTransactionR
  | .accumulateTSA => .accumulateTSR
  | .reapQueueA => .reapQueueR
  | .enqueueUpdateA => .enqueueUpdateR
  | .enqueueMessageA => .enqueueMessageR
  | .rangeLookupA => .rangeLookupR ⟨[], [], []⟩ []

/-- A freshly allocated (zero-valued) reply for a request. -/
def zeroReply (p : ArgPayload) : Reply := ⟨none, tsZero, zeroPayload p⟩

/-! ## Operation handlers (Range.Contains .. Range.InternalRangeLookup) -/

/-- Range.Contains: `val, err := get; if err { reply.Error = err };
if val != nil { reply.Exists = true }`. -/
def runContains (r : ExecState) (key : Key) (reply : Reply) : ExecState × Reply :=
  match r.engine.get key with
  | .error e => (r, { reply with Error := some (.engineErr e) })
  | .ok val =>
    if val.isSome then (r, { reply with payload := .containsR true })
    else (r, reply)

/-- Range.Get: `reply.Value = Value{Bytes: val}; reply.Error = err`. -/
def runGet (r : ExecState) (key : Key) (reply : Reply) : ExecState × Reply :=
  match r.engine.get key with
  | .error e => (r, { reply with payload := .getR ⟨none⟩, Error := some (.engineErr e) })
  | .ok val => (r, { reply with payload := .getR ⟨val⟩, Error := none })

/-- Range.internalPut (range.go:544-560): put the value into the engine,
and when the key falls under a tracked configuration prefix, trigger
maybeGossipConfigs (the loop breaks at the first matching prefix).  The
source's `cp.dirty = true` (range.go:554) assigns to the for-range loop's
per-iteration copy of the configPrefixes element — configPrefixes is a
slice of struct values — so the table's dirty flag is not written; the
maybeGossipConfigs call is the matching branch's only surviving effect. -/
def internalPut (r : ExecState) (key : Key) (value : Value) : ExecState × Option Err :=
  match r.engine.put key value.Bytes with
  | .error e => (r, some (.engineErr e))
  | .ok eng' =>
    let r1 := { r with engine := eng' }
    if bytesHasPrefix key KeyConfigAccountingPrefix then
      (maybeGossipConfigs r1, none)
    else if bytesHasPrefix key KeyConfigPermissionPrefix then
      (maybeGossipConfigs r1, none)
    else if bytesHasPrefix key KeyConfigZonePrefix then
      (maybeGossipConfigs r1, none)
    else (r1, none)

/-- Range.Put: `reply.Error = r.internalPut(args.Key, args.Value)`. -/
def runPut (r : ExecState) (key : Key) (value : Value) (reply : Reply) :
    ExecState × Reply :=
  let p := internalPut r key value
  (p.1, { reply with Error := p.2 })

/-- Range.ConditionalPut: check for non-existence under the expect-absent
sentinel (nil ExpValue.Bytes), for existence and for equality of the current
value otherwise; on mismatch attach the actual value; on match fall through
to internalPut. -/
def runConditionalPut (r : ExecState) (key : Key) (expValue value : Value)
    (reply : Reply) : ExecState × Reply :=
  match r.engine.get key with
  | .error e => (r, { reply with Error := some (.engineErr e) })
  | .ok val =>
    match expValue.Bytes, val with
    | none, some _ => (r, { reply with Error := some (.alreadyExists key) })
    | some _, none => (r, { reply with Error := some (.doesNotExist key) })
    | some exp, some cur =>
      if exp == cur then
        let p := internalPut r key value
        (p.1, { reply with Error := p.2 })
      else
        (r, { reply with
              payload := .condPutR (some ⟨some cur⟩)
              Error := some (.condFailed key) })
    | none, none =>
      let p := internalPut r key value
      (p.1, { reply with Error := p.2 })

/-- Modelled from the spec (§4.5): increment parses the existing value as a
signed integer (absent = 0), adds the delta, stores and returns the new
value (the helper lives outside the staged sources). -/
def incrementFn (eng : Engine) (key : Key) (inc : Int) : Engine × Int × Option Err :=
  match eng.get key with
  | .error e => (eng, 0, some (.engineErr e))
  | .ok val =>
    let cur? : Option Int :=
      match val with
      | none => some 0
      | some bytes =>
        match decInt bytes with
        | some (i, []) => some i
        | _ => none
    match cur? with
    | none => (eng, 0, some .badIncrementValue)
    | some cur =>
      match eng.put key (some (encInt (cur + inc))) with
      | .error e => (eng, 0, some (.engineErr e))
      | .ok eng' => (eng', cur + inc, none)

/-- Range.Increment: `reply.NewValue, reply.Error = increment(...)`. -/
def runIncrement (r : ExecState) (key : Key) (inc : Int) (reply : Reply) :
    ExecState × Reply :=
  let p := incrementFn r.engine key inc
  ({ r with engine := p.1 }, { reply with payload := .incrementR p.2.1, Error := p.2.2 })

/-- Range.Delete: `if err := clear(key); err != nil { reply.Error = err }`. -/
def runDelete (r : ExecState) (key : Key) (reply : Reply) : ExecState × Reply :=
  match r.engine.clear key with
  | .error e => (r, { reply with Error := some (.engineErr e) })
  | .ok eng' => ({ r with engine := eng' }, reply)

/-- Range.Scan: engine scan from key to endKey with MaxResults, rows copied
into the reply. -/
def runScan (r : ExecState) (key endKey : Key) (maxResults : Int) (reply : Reply) :
    ExecState × Reply :=
  match r.engine.scan key endKey maxResults with
  | .error e => (r, { reply with Error := some (.engineErr e) })
  | .ok kvs =>
    (r, { reply with payload := .scanR (kvs.map fun kv => (kv.1, ⟨kv.2⟩)) })

/-- Range.InternalRangeLookup.  The result is `none` when the Go code
panics: after the prefix and end-key validations and a successful scan, the
source computes `args.Key[0:len(KeyMeta1Prefix)]`, which is out of the key's
bounds when the key is shorter than the level-1 prefix. -/
def runInternalRangeLookup (r : ExecState) (key : Key) (reply : Reply) :
    Option (ExecState × Reply) :=
  if !bytesHasPrefix key KeyMetaPrefix then
    some (r, { reply with Error := some (.invalidMetaKey key) })
  else if !keyLt key r.Meta.Desc.EndKey then
    some (r, { reply with Error := some (.keyOutsideRange r.Meta.RangeID) })
  else
    match r.engine.scanToMax (NextKey key) 1 with
    | .error e => some (r, { reply with Error := some (.engineErr e) })
    | .ok kvs =>
      if KeyMeta1Prefix.length ≤ key.length then
        let metaPfx := key.take KeyMeta1Prefix.length
        match kvs with
        | [kv] =>
          if bytesHasPrefix kv.1 metaPfx then
            match gobDecodeRangeDescriptor (kv.2.getD []) with
            | none => some (r, { reply with Error := some .decodeFailed })
            | some d =>
              if keyLt key d.StartKey then
                some (r, { reply with Error := some (.noRangeFound key) })
              else
                some (r, { reply with payload := .rangeLookupR d kv.1 })
          else
            some (r, { reply with Error := some (.keyNotFound r.Meta.RangeID) })
        | _ => some (r, { reply with Error := some (.keyNotFound r.Meta.RangeID) })
      else none

/-! ## Response cache, timestamp cache, dispatcher and entry points -/

/-- A stored response-cache entry: a previously persisted reply, or one
whose stored bytes no longer decode. -/
inductive CacheEntry where
  | good (rep : Reply)
  | corrupt
deriving DecidableEq

/-- Modelled from the spec (§4.3): the per-range response cache, persisted
in the engine; `putErr` is the fault flag for a failing PutResponse write. -/
structure RespCache where
  entries : List (ClientCmdID × CacheEntry)
  putErr : Option String
deriving DecidableEq

def cacheLookup : List (ClientCmdID × CacheEntry) → ClientCmdID → Option CacheEntry
  | [], _ => none
  | (c, e) :: rest, cid => if c == cid then some e else cacheLookup rest cid

/-- The tri-state outcome of a response-cache lookup. -/
inductive GetRes where
  | found (rep : Reply)
  | notFound
  | decodeFailure
deriving DecidableEq

def GetRes.isFound : GetRes → Bool
  | .found _ => true
  | _ => false

/-- Modelled from the spec (§4.3): GetResponse looks up a previously stored
reply: found, not found, or a decode failure. -/
def RespCache.GetResponse (rc : RespCache) (cid : ClientCmdID) : GetRes :=
  match cacheLookup rc.entries cid with
  | some (.good rep) => .found rep
  | some .corrupt => .decodeFailure
  | none => .notFound

def eraseCmd (l : List (ClientCmdID × CacheEntry)) (cid : ClientCmdID) :
    List (ClientCmdID × CacheEntry) :=
  l.filter (fun p => p.1 != cid)

/-- Modelled from the spec (§4.3): PutResponse persists the reply keyed by
the command identifier. -/
def RespCache.PutResponse (rc : RespCache) (cid : ClientCmdID) (rep : Reply) :
    Except String RespCache :=
  match rc.putErr with
  | some msg => .error msg
  | none => .ok { rc with entries := eraseCmd rc.entries cid ++ [(cid, .good rep)] }

structure TsEntry where
  start : Key
  stop : Key
  ts : Timestamp
deriving DecidableEq

/-- Modelled from the spec (§4.1): the read timestamp cache: recorded read
ranges with their timestamps over a low-water mark. -/
structure TsCache where
  lowWater : Timestamp
  entries : List TsEntry
deriving DecidableEq

/-- Membership of a key in a range whose empty end means the single key
equal to its start (spec §3). -/
def rangeMem (key s e : Key) : Bool :=
  if e.isEmpty then key == s else !keyLt key s && keyLt key e

def rangesOverlap (s1 e1 s2 e2 : Key) : Bool :=
  if e1.isEmpty then rangeMem s1 s2 e2
  else if e2.isEmpty then rangeMem s2 s1 e1
  else keyLt s1 e2 && keyLt s2 e1

/-- Modelled from the spec (§4.1): Add records a read over a key range. -/
def TsCache.Add (c : TsCache) (s e : Key) (ts : Timestamp) : TsCache :=
  { c with entries := c.entries ++ [⟨s, e, ts⟩] }

/-- Modelled from the spec (§4.1): GetMax returns the maximum recorded
timestamp that overlaps the queried range, and at least the low-water mark. -/
def TsCache.GetMax (c : TsCache) (s e : Key) : Timestamp :=
  c.entries.foldl
    (fun acc ent => if rangesOverlap ent.start ent.stop s e then tsMax acc ent.ts else acc)
    c.lowWater

/-- The full per-range state the entry points use. -/
structure RangeState where
  core : ExecState
  tsCache : TsCache
  respCache : RespCache
deriving DecidableEq

/-- The executeCmd switch over the operation handlers; `none` models a
handler panic unwinding through the dispatcher. -/
def runMethod (r : ExecState) (args : Args) (reply : Reply) :
    Option (ExecState × Reply) :=
  match args.payload with
  | .containsA => some (runContains r args.header.Key reply)
  | .getA => some (runGet r args.header.Key reply)
  | .putA v => some (runPut r args.header.Key v reply)
  | .condPutA ev v => some (runConditionalPut r args.header.Key ev v reply)
  | .incrementA i => some (runIncrement r args.header.Key i reply)
  | .deleteA => some (runDelete r args.header.Key reply)
  | .deleteRangeA => some (r, { reply with Error := some .unimplemented })
  | .scanA mx => some (runScan r args.header.Key args.header.EndKey mx reply)
  | .endTransactionA => some (r, { reply with Error := some .unimplemented })
  | .accumulateTSA => some (r, { reply with Error := some .unimplemented })
  | .reapQueueA => some (r, { reply with Error := some .unimplemented })
  | .enqueueUpdateA => some (r, { reply with Error := some .unimplemented })
  | .enqueueMessageA => some (r, { reply with Error := some .unimplemented })
  | .rangeLookupA => runInternalRangeLookup r args.header.Key reply

/-- Range.executeCmd: run the handler; when the method is not read-only,
persist the reply to the response cache keyed by the request's CmdID (a
failing cache write is logged, not surfaced); finally return the error (if
any) set in the reply. -/
def executeCmd (r : RangeState) (args : Args) (reply0 : Reply) :
    Option (RangeState × Reply × Option Err) :=
  match runMethod r.core args reply0 with
  | none => none
  | some (core', reply) =>
    let respCache' :=
      if !IsReadOnly (methodOf args.payload) then
        match r.respCache.PutResponse args.header.CmdID reply with
        | .error _ => r.respCache
        | .ok rc => rc
      else r.respCache
    some ({ r with core := core', respCache := respCache' }, reply, reply.Error)

/-- Range.ReadWriteCmd: consult the response cache (a replay returns the
stored reply and its embedded error; a decode failure proceeds as a miss);
check the read timestamp cache and advance the write's timestamp past a
more recent overlapping read, writing it into both the request header and
the reply; then submit for execution.  The read-queue AddWrite/RemoveWrite
bracket around execution is concurrency bookkeeping that leaves no trace in
this sequential model.  The final header is returned alongside the result
because the source mutates the caller's header in place. -/
def ReadWriteCmd (r : RangeState) (args : Args) :
    Option (RangeState × RequestHeader × Reply × Option Err) :=
  let reply0 := zeroReply args.payload
  match r.respCache.GetResponse args.header.CmdID with
  | .found rep => some (r, args.header, rep, rep.Error)
  | _ =>
    let ts := r.tsCache.GetMax args.header.Key args.header.EndKey
    let hr :=
      if args.header.Timestamp.Less ts then
        let ts' : Timestamp := { ts with Logical := ts.Logical + 1 }
        ({ args.header with Timestamp := ts' }, { reply0 with Timestamp := ts' })
      else (args.header, reply0)
    (executeCmd r { args with header := hr.1 } hr.2).map fun q => (q.1, hr.1, q.2)

/-- Range.ReadOnlyCmd: record the read in the timestamp cache, wait out
overlapping pending writes (no trace in the sequential model), re-check
leadership (constant true in the reference) and execute directly. -/
def ReadOnlyCmd (r : RangeState) (args : Args) :
    Option (RangeState × Reply × Option Err) :=
  let r1 := { r with
    tsCache := r.tsCache.Add args.header.Key args.header.EndKey args.header.Timestamp }
  executeCmd r1 args (zeroReply args.payload)

/-! ## Concrete instances and views used by the theorems -/

def c10desc : RangeDescriptor := ⟨[], [1], []⟩

def allMethods : List String :=
  ["Contains", "Get", "Put", "ConditionalPut", "Increment", "Scan", "Delete",
   "DeleteRange", "EndTransaction", "AccumulateTS", "ReapQueue",
   "EnqueueUpdate", "EnqueueMessage", "InternalRangeLookup"]

def c7range : ExecState :=
  ⟨⟨⟨[], [255], []⟩, "cluster", 1⟩, ⟨[], none, none, none, none⟩,
   ⟨true, none, []⟩, ⟨true, true, true⟩⟩

def c4state : ExecState :=
  ⟨⟨⟨[], [255], []⟩, "cluster", 1⟩,
   ⟨[([97], some [50])], none, none, none, none⟩,
   ⟨true, none, []⟩, ⟨false, false, false⟩⟩

/-- A base range state used by concrete instantiations: an empty healthy
engine, a live gossip handle, clean dirty flags, empty caches. -/
def exBase : ExecState :=
  ⟨⟨⟨[], [255], []⟩, "cluster", 1⟩, ⟨[], none, none, none, none⟩,
   ⟨true, none, []⟩, ⟨false, false, false⟩⟩

def baseR : RangeState := ⟨exBase, ⟨tsZero, []⟩, ⟨[], none⟩⟩

def c8args : Args := ⟨⟨tsZero, 7, [1], [2]⟩, .deleteRangeA⟩

def execView (p : RangeState × Reply × Option Err) :
    ExecState × TsCache × Reply × Option Err :=
  (p.1.core, p.1.tsCache, p.2)

def c3args : Args := ⟨⟨tsZero, 7, [1], []⟩, .putA ⟨some [42]⟩⟩

def c3post : RangeState :=
  ⟨{ exBase with engine := { exBase.engine with entries := [([1], some [42])] } },
   ⟨tsZero, []⟩, ⟨[(7, .good (zeroReply (.putA ⟨some [42]⟩)))], none⟩⟩

def rwView (p : RangeState × RequestHeader × Reply × Option Err) :
    ExecState × TsCache × RequestHeader × Reply × Option Err :=
  (p.1.core, p.1.tsCache, p.2)

def c2rep : Reply := ⟨some .unimplemented, ⟨3, 3⟩, .putR⟩

def c2state : RangeState := ⟨exBase, ⟨tsZero, []⟩, ⟨[(9, .good c2rep)], none⟩⟩

def c2args : Args := ⟨⟨tsZero, 9, [1], []⟩, .putA ⟨some [42]⟩⟩

def c1state : RangeState := ⟨exBase, ⟨tsZero, [⟨[1], [], ⟨5, 0⟩⟩]⟩, ⟨[], none⟩⟩

def c1args : Args := ⟨⟨⟨5, 0⟩, 9, [1], []⟩, .putA ⟨some [42]⟩⟩

def c1wargs : Args := ⟨⟨⟨4, 0⟩, 9, [1], []⟩, .putA ⟨some [42]⟩⟩

def c1wres : RangeState × RequestHeader × Reply × Option Err :=
  (⟨{ exBase with engine := { exBase.engine with entries := [([1], some [42])] } },
    ⟨tsZero, [⟨[1], [], ⟨5, 0⟩⟩]⟩, ⟨[(9, .good ⟨none, ⟨5, 1⟩, .putR⟩)], none⟩⟩,
   ⟨⟨5, 1⟩, 9, [1], []⟩, ⟨none, ⟨5, 1⟩, .putR⟩, none)

def c6desc : RangeDescriptor := ⟨[], [200], []⟩

def c6entryKey : Key := KeyMeta1Prefix ++ [20]

def c6range : ExecState :=
  ⟨⟨⟨[], [255], []⟩, "cluster", 1⟩,
   ⟨[(c6entryKey, some (encRangeDescriptor c6desc))], none, none, none, none⟩,
   ⟨true, none, []⟩, ⟨false, false, false⟩⟩

def c6key : Key := KeyMeta1Prefix ++ [10]

/-- A range with a live gossip handle, a healthy empty engine, a keyspace
containing all three configuration prefixes — and, to expose the lost
`cp.dirty = true` write, configPrefixes flags all false. -/
def c5live : ExecState :=
  ⟨⟨⟨[], [255], []⟩, "cluster", 1⟩, ⟨[], none, none, none, none⟩,
   ⟨false, none, []⟩, ⟨false, false, false⟩⟩

/-- The same range with the configPrefixes flags at the table's initial —
and, the writes never landing, perpetual — values: all true. -/
def c5table : ExecState := { c5live with dirty := ⟨true, true, true⟩ }

def c5key : Key := KeyConfigAccountingPrefix ++ [7]

/-! ## Helper lemmas -/

theorem keyLt_irrefl (k : Key) : keyLt k k = false := by
  induction k with
  | nil => rfl
  | cons a as ih => simp [keyLt, ih]

theorem cacheLookup_erase (l : List (ClientCmdID × CacheEntry)) (cid : ClientCmdID) :
    cacheLookup (eraseCmd l cid) cid = none := by
  induction l with
  | nil => rfl
  | cons p rest ih =>
    obtain ⟨c, e⟩ := p
    by_cases h : c = cid
    · simpa [eraseCmd, List.filter_cons, h] using ih
    · simpa [eraseCmd, List.filter_cons, cacheLookup, h] using ih

theorem cacheLookup_set (l : List (ClientCmdID × CacheEntry)) (cid : ClientCmdID)
    (e : CacheEntry) : cacheLookup (eraseCmd l cid ++ [(cid, e)]) cid = some e := by
  induction l with
  | nil => simp [eraseCmd, cacheLookup]
  | cons p rest ih =>
    obtain ⟨c, x⟩ := p
    by_cases h : c = cid
    · simpa [eraseCmd, List.filter_cons, h] using ih
    · simpa [eraseCmd, List.filter_cons, cacheLookup, h] using ih

/-! ## C10: ContainsKeyRange with an empty end key -/

/-- C10 fails as stated: for the descriptor with start `[]` and end `[1]`
(which satisfies start ≤ end) and the key `[1]` equal to the end key,
ContainsKeyRange with an empty end holds although ContainsKey does not:
the empty-end check compares the end key inclusively. -/
theorem containsKeyRange_empty_end_cex :
    keyLt c10desc.StartKey c10desc.EndKey = true ∧
    c10desc.ContainsKeyRange [1] [] = some true ∧
    c10desc.ContainsKey [1] = false := by decide

/-- C10 (amended): for every descriptor and key, ContainsKeyRange with an
empty end key treats the query as the single-key range at the key and never
panics, and holds exactly when start ≤ key ≤ end — the descriptor's end key
is compared inclusively, so the key equal to the end key is accepted even
though ContainsKey rejects it. -/
theorem containsKeyRange_empty_end (r : RangeDescriptor) (k : Key) :
    r.ContainsKeyRange k [] = some (!keyLt k r.StartKey && !keyLt r.EndKey k) := by
  unfold RangeDescriptor.ContainsKeyRange
  simp [keyLt_irrefl]

/-! ## C9: the read-only / write classification -/

/-- C9: over the operation surface, IsReadOnly holds exactly for Contains,
Get, Scan and InternalRangeLookup — every other method (Put, ConditionalPut,
Increment, Delete, DeleteRange, EndTransaction, AccumulateTS, ReapQueue,
EnqueueUpdate, EnqueueMessage) is classified as a write — and IsReadOnly is
the negation of NeedWritePerm on every method string. -/
theorem isReadOnly_classification :
    (allMethods.all fun m =>
      IsReadOnly m == (["Contains", "Get", "Scan", "InternalRangeLookup"].contains m))
      = true ∧
    ∀ method : String, IsReadOnly method = !NeedWritePerm method :=
  ⟨by decide, fun _ => rfl⟩

/-! ## C7: the metadata-level prefix extraction in InternalRangeLookup -/

/-- C7 is violated by the code: the bare metadata key "\x00\x00meta" passes
both entry validations (it carries the metadata prefix and lies below the
range's end key) and the scan succeeds, yet the key is shorter than the
level-1 prefix, so the extraction args.Key[0:len(KeyMeta1Prefix)] is out of
the key's bounds and the lookup panics (modelled as `none`) instead of
returning a reply. -/
theorem internalRangeLookup_bare_meta_key_panics :
    bytesHasPrefix KeyMetaPrefix KeyMetaPrefix = true ∧
    keyLt KeyMetaPrefix c7range.Meta.Desc.EndKey = true ∧
    c7range.engine.scanErr = none ∧
    KeyMetaPrefix.length < KeyMeta1Prefix.length ∧
    runInternalRangeLookup c7range KeyMetaPrefix (zeroReply .rangeLookupA) = none := by
  decide

/-! ## C4: ConditionalPut semantics -/

/-- C4: ConditionalPut (i) fails with an already-exists error under the
expect-absent sentinel when the key exists, (ii) fails with a does-not-exist
error for a non-nil expectation on an absent key, (iii) fails with the
actual current value attached to the reply when the expectation differs
from the current value, and (iv)/(v) behaves exactly as Put when the
expectation matches or the key is absent under the sentinel. -/
theorem conditionalPut_semantics :
    (∀ (r : ExecState) (key : Key) (nv : Value) (rep0 : Reply) (v : List Nat),
      r.engine.get key = .ok (some v) →
      runConditionalPut r key ⟨none⟩ nv rep0 =
        (r, { rep0 with Error := some (.alreadyExists key) })) ∧
    (∀ (r : ExecState) (key : Key) (e : List Nat) (nv : Value) (rep0 : Reply),
      r.engine.get key = .ok none →
      runConditionalPut r key ⟨some e⟩ nv rep0 =
        (r, { rep0 with Error := some (.doesNotExist key) })) ∧
    (∀ (r : ExecState) (key : Key) (e : List Nat) (nv : Value) (rep0 : Reply)
        (v : List Nat),
      r.engine.get key = .ok (some v) → e ≠ v →
      runConditionalPut r key ⟨some e⟩ nv rep0 =
        (r, { rep0 with
              payload := .condPutR (some ⟨some v⟩)
              Error := some (.condFailed key) })) ∧
    (∀ (r : ExecState) (key : Key) (e : List Nat) (nv : Value) (rep0 : Reply),
      r.engine.get key = .ok (some e) →
      runConditionalPut r key ⟨some e⟩ nv rep0 = runPut r key nv rep0) ∧
    (∀ (r : ExecState) (key : Key) (nv : Value) (rep0 : Reply),
      r.engine.get key = .ok none →
      runConditionalPut r key ⟨none⟩ nv rep0 = runPut r key nv rep0) := by
  refine ⟨?_, ?_, ?_, ?_, ?_⟩
  · intro r key nv rep0 v hget
    simp [runConditionalPut, hget]
  · intro r key e nv rep0 hget
    simp [runConditionalPut, hget]
  · intro r key e nv rep0 v hget hne
    simp [runConditionalPut, hget, hne]
  · intro r key e nv rep0 hget
    simp [runConditionalPut, runPut, hget]
  · intro r key nv rep0 hget
    simp [runConditionalPut, runPut, hget]

/-- C4 witness: at the key "a" holding value "2", a ConditionalPut expecting
"1" fails with the actual value "2" attached to the reply. -/
theorem conditionalPut_semantics_witness :
    runConditionalPut c4state [97] ⟨some [49]⟩ ⟨some [51]⟩ (zeroReply (.condPutA ⟨some [49]⟩ ⟨some [51]⟩)) =
      (c4state, { zeroReply (.condPutA ⟨some [49]⟩ ⟨some [51]⟩) with
                  payload := .condPutR (some ⟨some [50]⟩)
                  Error := some (.condFailed [97]) }) :=
  conditionalPut_semantics.2.2.1 c4state [97] [49] ⟨some [51]⟩
    (zeroReply (.condPutA ⟨some [49]⟩ ⟨some [51]⟩)) [50] rfl (by decide)

/-! ## C8: the six unimplemented placeholder operations -/

/-- C8: for every argument, each of DeleteRange, EndTransaction,
AccumulateTS, ReapQueue, EnqueueUpdate and EnqueueMessage only sets the
"unimplemented" error in its reply — the range state other than the
response cache (in particular the storage engine) is unchanged — while the
reply still flows through the same dispatch and, the methods being
classified as writes, is persisted to the response cache keyed by the
request's CmdID. -/
theorem unimplemented_methods_stub (r : RangeState) (args : Args) (reply0 : Reply) :
    methodOf args.payload ∈
      (["DeleteRange", "EndTransaction", "AccumulateTS", "ReapQueue",
        "EnqueueUpdate", "EnqueueMessage"] : List String) →
    r.respCache.putErr = none →
    executeCmd r args reply0 =
      some ({ r with respCache := { r.respCache with
                entries := eraseCmd r.respCache.entries args.header.CmdID ++
                  [(args.header.CmdID,
                    .good { reply0 with Error := some .unimplemented })] } },
            { reply0 with Error := some .unimplemented }, some .unimplemented) := by
  intro hm hput
  obtain ⟨hdr, p⟩ := args
  cases p <;>
    simp_all [executeCmd, runMethod, methodOf, IsReadOnly, NeedWritePerm,
      writeMethods, RespCache.PutResponse]

/-- C8 witness: a concrete DeleteRange request gets the unimplemented error,
leaves the engine untouched and lands in the response cache. -/
theorem unimplemented_methods_stub_witness :
    executeCmd baseR c8args (zeroReply .deleteRangeA) =
      some ({ baseR with respCache :=
                ⟨[(7, .good { zeroReply .deleteRangeA with Error := some .unimplemented })],
                 none⟩ },
            { zeroReply .deleteRangeA with Error := some .unimplemented },
            some .unimplemented) :=
  unimplemented_methods_stub baseR c8args (zeroReply .deleteRangeA) (by decide) rfl

/-! ## C3: response-cache persistence in executeCmd -/

/-- C3: (i) for every method that is not read-only, executeCmd persists the
reply — error replies included — to the response cache keyed by the
request's CmdID once the cache write goes through; (ii) for read-only
methods executeCmd leaves the response cache untouched; (iii) a failure of
the response-cache write itself changes nothing in executeCmd's returned
execution state, reply or error. -/
theorem executeCmd_response_cache :
    (∀ (r : RangeState) (args : Args) (rep0 : Reply) (r' : RangeState)
        (rep : Reply) (err : Option Err),
      IsReadOnly (methodOf args.payload) = false →
      r.respCache.putErr = none →
      executeCmd r args rep0 = some (r', rep, err) →
      cacheLookup r'.respCache.entries args.header.CmdID = some (.good rep)) ∧
    (∀ (r : RangeState) (args : Args) (rep0 : Reply) (r' : RangeState)
        (rep : Reply) (err : Option Err),
      IsReadOnly (methodOf args.payload) = true →
      executeCmd r args rep0 = some (r', rep, err) →
      r'.respCache = r.respCache) ∧
    (∀ (r : RangeState) (args : Args) (rep0 : Reply) (msg : String),
      (executeCmd { r with respCache := { r.respCache with putErr := some msg } }
          args rep0).map execView =
      (executeCmd { r with respCache := { r.respCache with putErr := none } }
          args rep0).map execView) := by
  refine ⟨?_, ?_, ?_⟩
  · intro r args rep0 r' rep err hro hput hres
    unfold executeCmd at hres
    cases hrun : runMethod r.core args rep0 with
    | none => rw [hrun] at hres; cases hres
    | some p =>
      obtain ⟨core', rep1⟩ := p
      rw [hrun] at hres
      simp only [hro, Bool.not_false, if_true, RespCache.PutResponse, hput,
        Option.some.injEq, Prod.mk.injEq] at hres
      obtain ⟨h1, h2, h3⟩ := hres
      subst h1; subst h2
      exact cacheLookup_set _ _ _
  · intro r args rep0 r' rep err hro hres
    unfold executeCmd at hres
    cases hrun : runMethod r.core args rep0 with
    | none => rw [hrun] at hres; cases hres
    | some p =>
      obtain ⟨core', rep1⟩ := p
      rw [hrun] at hres
      simp only [hro, Bool.not_true, if_false, Option.some.injEq, Prod.mk.injEq] at hres
      obtain ⟨h1, h2, h3⟩ := hres
      subst h1; rfl
  · intro r args rep0 msg
    unfold executeCmd
    cases hrun : runMethod r.core args rep0 with
    | none => simp [hrun]
    | some p =>
      obtain ⟨core', rep1⟩ := p
      cases hro : IsReadOnly (methodOf args.payload) with
      | true => simp [hrun, hro, execView]
      | false => simp [hrun, hro, RespCache.PutResponse, execView]

/-- C3 witness: a concrete Put's reply is found in the response cache under
its CmdID after executeCmd. -/
theorem executeCmd_response_cache_witness :
    cacheLookup c3post.respCache.entries 7 =
      some (.good (zeroReply (.putA ⟨some [42]⟩))) :=
  executeCmd_response_cache.1 baseR c3args (zeroReply (.putA ⟨some [42]⟩)) c3post
    (zeroReply (.putA ⟨some [42]⟩)) none (by decide) rfl (by decide)

/-! ## C2: the response-cache fast path of ReadWriteCmd -/

theorem executeCmd_entries_view (r : RangeState) (X : List (ClientCmdID × CacheEntry))
    (args : Args) (rep0 : Reply) :
    (executeCmd { r with respCache := { r.respCache with entries := X } } args rep0).map
        execView =
      (executeCmd r args rep0).map execView := by
  unfold executeCmd
  cases hrun : runMethod r.core args rep0 with
  | none => simp [hrun]
  | some p =>
    obtain ⟨core', rep1⟩ := p
    cases hro : IsReadOnly (methodOf args.payload) with
    | true => simp [hrun, hro, execView]
    | false =>
      cases hpe : r.respCache.putErr with
      | none => simp [hrun, hro, RespCache.PutResponse, hpe, execView]
      | some m => simp [hrun, hro, RespCache.PutResponse, hpe, execView]

theorem map_pair_view (o : Option (RangeState × Reply × Option Err))
    (hdr : RequestHeader) :
    (o.map fun q => (q.1, hdr, q.2)).map rwView =
      (o.map execView).map (fun v => (v.1, v.2.1, hdr, v.2.2)) := by
  cases o <;> rfl

/-- C2: (i) when the response cache holds a reply for header.CmdID,
ReadWriteCmd returns exactly that stored reply with its embedded error (or
nil) as the call's result and the whole range state untouched — the command
is not executed; (ii) when the lookup hits an entry that fails to decode,
ReadWriteCmd behaves on every observable component (execution state,
timestamp cache, final header, reply, error) exactly as if the entry were
absent: the command proceeds to normal execution. -/
theorem readWriteCmd_replay_and_decode_miss :
    (∀ (r : RangeState) (args : Args) (rep : Reply),
      r.respCache.GetResponse args.header.CmdID = .found rep →
      ReadWriteCmd r args = some (r, args.header, rep, rep.Error)) ∧
    (∀ (r : RangeState) (args : Args),
      cacheLookup r.respCache.entries args.header.CmdID = some .corrupt →
      (ReadWriteCmd r args).map rwView =
        (ReadWriteCmd { r with respCache := { r.respCache with
            entries := eraseCmd r.respCache.entries args.header.CmdID } } args).map
          rwView) := by
  refine ⟨?_, ?_⟩
  · intro r args rep h
    simp only [ReadWriteCmd, h]
  · intro r args h
    have h1 : r.respCache.GetResponse args.header.CmdID = .decodeFailure := by
      unfold RespCache.GetResponse
      rw [h]
    have h2 : RespCache.GetResponse
        { r.respCache with entries := eraseCmd r.respCache.entries args.header.CmdID }
        args.header.CmdID = .notFound := by
      unfold RespCache.GetResponse
      rw [cacheLookup_erase]
    simp only [ReadWriteCmd, h1, h2]
    cases hts : args.header.Timestamp.Less
        (r.tsCache.GetMax args.header.Key args.header.EndKey) <;>
      simp only [hts, Bool.false_eq_true, if_false, if_true] <;>
      rw [map_pair_view, map_pair_view] <;>
      exact congrArg (Option.map _) (executeCmd_entries_view r _ _ _).symm

/-- C2 witness: a concrete replay returns the stored reply and its embedded
error without execution. -/
theorem readWriteCmd_replay_and_decode_miss_witness :
    ReadWriteCmd c2state c2args =
      some (c2state, c2args.header, c2rep, some .unimplemented) :=
  readWriteCmd_replay_and_decode_miss.1 c2state c2args c2rep rfl

/-! ## C1: the timestamp-cache check of ReadWriteCmd -/

theorem runContains_timestamp (r : ExecState) (key : Key) (rep : Reply) :
    (runContains r key rep).2.Timestamp = rep.Timestamp := by
  unfold runContains
  rcases r.engine.get key with e | val
  · rfl
  · by_cases h : val.isSome <;> simp [h]

theorem runGet_timestamp (r : ExecState) (key : Key) (rep : Reply) :
    (runGet r key rep).2.Timestamp = rep.Timestamp := by
  unfold runGet
  rcases r.engine.get key with e | val <;> rfl

theorem runConditionalPut_timestamp (r : ExecState) (key : Key) (ev v : Value)
    (rep : Reply) : (runConditionalPut r key ev v rep).2.Timestamp = rep.Timestamp := by
  unfold runConditionalPut
  rcases r.engine.get key with e | val
  · rfl
  · rcases ev.Bytes with _ | exp <;> rcases val with _ | cur
    · rfl
    · rfl
    · rfl
    · by_cases h : exp == cur <;> simp [h]

theorem runDelete_timestamp (r : ExecState) (key : Key) (rep : Reply) :
    (runDelete r key rep).2.Timestamp = rep.Timestamp := by
  unfold runDelete
  rcases r.engine.clear key with e | eng' <;> rfl

theorem runScan_timestamp (r : ExecState) (key endKey : Key) (mx : Int) (rep : Reply) :
    (runScan r key endKey mx rep).2.Timestamp = rep.Timestamp := by
  unfold runScan
  rcases r.engine.scan key endKey mx with e | kvs <;> rfl

theorem runInternalRangeLookup_timestamp (r : ExecState) (key : Key) (rep : Reply)
    (p : ExecState × Reply) (h : runInternalRangeLookup r key rep = some p) :
    p.2.Timestamp = rep.Timestamp := by
  unfold runInternalRangeLookup at h
  repeat'
    first
      | (cases h; rfl)
      | cases h
      | split at h
      | (simp only [] at h)

theorem runMethod_timestamp (r : ExecState) (args : Args) (rep0 : Reply)
    (p : ExecState × Reply) (h : runMethod r args rep0 = some p) :
    p.2.Timestamp = rep0.Timestamp := by
  obtain ⟨hdr, pl⟩ := args
  cases pl <;> simp only [runMethod] at h
  case containsA => cases h; exact runContains_timestamp _ _ _
  case getA => cases h; exact runGet_timestamp _ _ _
  case putA v => cases h; rfl
  case condPutA ev v => cases h; exact runConditionalPut_timestamp _ _ _ _ _
  case incrementA i => cases h; rfl
  case deleteA => cases h; exact runDelete_timestamp _ _ _
  case deleteRangeA => cases h; rfl
  case scanA mx => cases h; exact runScan_timestamp _ _ _ _ _
  case endTransactionA => cases h; rfl
  case accumulateTSA => cases h; rfl
  case reapQueueA => cases h; rfl
  case enqueueUpdateA => cases h; rfl
  case enqueueMessageA => cases h; rfl
  case rangeLookupA => exact runInternalRangeLookup_timestamp _ _ _ _ h

theorem executeCmd_timestamp (r : RangeState) (args : Args) (rep0 : Reply)
    (q : RangeState × Reply × Option Err) (h : executeCmd r args rep0 = some q) :
    q.2.1.Timestamp = rep0.Timestamp := by
  unfold executeCmd at h
  cases hrun : runMethod r.core args rep0 with
  | none => rw [hrun] at h; cases h
  | some p =>
    obtain ⟨core', rep1⟩ := p
    rw [hrun] at h
    cases h
    exact runMethod_timestamp r.core args rep0 (core', rep1) hrun

theorem tsLess_bump (t : Timestamp) : t.Less ⟨t.WallTime, t.Logical + 1⟩ = true := by
  simp [Timestamp.Less]

/-- C1 fails as stated: with a read over the write's key registered in the
timestamp cache at timestamp ⟨5,0⟩ and a write whose header timestamp
equals it, GetMax returns ⟨5,0⟩ — at (not below) the header timestamp — yet
the write is not advanced: its final header timestamp is exactly ⟨5,0⟩ and
its reply timestamp stays zero, so the write commits at (not strictly
after) the overlapping served read's timestamp. -/
theorem readWriteCmd_equal_timestamp_cex :
    c1state.tsCache.GetMax c1args.header.Key c1args.header.EndKey = ⟨5, 0⟩ ∧
    c1args.header.Timestamp = ⟨5, 0⟩ ∧
    (ReadWriteCmd c1state c1args).map (fun q => q.2.1.Timestamp) = some ⟨5, 0⟩ ∧
    (ReadWriteCmd c1state c1args).map (fun q => q.2.2.1.Timestamp) = some tsZero ∧
    Timestamp.Less ⟨5, 0⟩ ⟨5, 0⟩ = false := by decide

/-- C1 (amended): whenever GetMax over the write's key range returns a
timestamp strictly above the write's header timestamp, ReadWriteCmd (past
the replay fast path) advances the timestamp strictly past it — the final
header timestamp is strictly greater than GetMax's result and the reply
carries the same advanced timestamp.  When GetMax's result equals the
header timestamp the write proceeds unchanged, so a write may commit
exactly at, but never strictly before, an overlapping served read's
timestamp. -/
theorem readWriteCmd_advances_past_newer_read (r : RangeState) (args : Args)
    (res : RangeState × RequestHeader × Reply × Option Err) :
    (r.respCache.GetResponse args.header.CmdID).isFound = false →
    (args.header.Timestamp.Less
      (r.tsCache.GetMax args.header.Key args.header.EndKey)) = true →
    ReadWriteCmd r args = some res →
    (r.tsCache.GetMax args.header.Key args.header.EndKey).Less res.2.1.Timestamp
      = true ∧
    res.2.2.1.Timestamp = res.2.1.Timestamp := by
  intro hnf hts hres
  unfold ReadWriteCmd at hres
  cases hget : r.respCache.GetResponse args.header.CmdID with
  | found rep => rw [hget] at hnf; cases hnf
  | notFound =>
    rw [hget] at hres
    simp only [hts, if_true] at hres
    cases hexec : executeCmd r
        { args with header := { args.header with Timestamp :=
            { r.tsCache.GetMax args.header.Key args.header.EndKey with
              Logical := (r.tsCache.GetMax args.header.Key args.header.EndKey).Logical + 1 } } }
        { zeroReply args.payload with Timestamp :=
            { r.tsCache.GetMax args.header.Key args.header.EndKey with
              Logical := (r.tsCache.GetMax args.header.Key args.header.EndKey).Logical + 1 } } with
    | none => rw [hexec] at hres; cases hres
    | some q =>
      rw [hexec] at hres
      cases hres
      refine ⟨tsLess_bump _, ?_⟩
      exact executeCmd_timestamp _ _ _ _ hexec
  | decodeFailure =>
    rw [hget] at hres
    simp only [hts, if_true] at hres
    cases hexec : executeCmd r
        { args with header := { args.header with Timestamp :=
            { r.tsCache.GetMax args.header.Key args.header.EndKey with
              Logical := (r.tsCache.GetMax args.header.Key args.header.EndKey).Logical + 1 } } }
        { zeroReply args.payload with Timestamp :=
            { r.tsCache.GetMax args.header.Key args.header.EndKey with
              Logical := (r.tsCache.GetMax args.header.Key args.header.EndKey).Logical + 1 } } with
    | none => rw [hexec] at hres; cases hres
    | some q =>
      rw [hexec] at hres
      cases hres
      refine ⟨tsLess_bump _, ?_⟩
      exact executeCmd_timestamp _ _ _ _ hexec

/-- C1 witness: a concrete write below a cached read's timestamp ends with
header and reply timestamps strictly past the read's. -/
theorem readWriteCmd_advances_past_newer_read_witness :
    (c1state.tsCache.GetMax c1wargs.header.Key c1wargs.header.EndKey).Less
      c1wres.2.1.Timestamp = true ∧
    c1wres.2.2.1.Timestamp = c1wres.2.1.Timestamp :=
  readWriteCmd_advances_past_newer_read c1state c1wargs c1wres (by decide) (by decide)
    (by decide)

/-! ## C6: InternalRangeLookup result characterisation -/

/-- C6: for a key carrying the metadata prefix, below the range's end key
(and long enough for the level-1 prefix, without which the code panics —
see the companion safety analysis), with a healthy engine scan from the key
immediately after the argument key: (i) when the scan yields one entry
whose key shares the argument's metadata-level prefix, the entry decodes to
a descriptor and the argument key is not below the descriptor's start key,
the lookup returns the decoded descriptor together with the key at which it
was found; (ii) when the entry qualifies but the argument key is below the
decoded start key, it fails with a no-range-found error; (iii) when the
scan does not yield exactly one entry sharing the metadata-level prefix, it
fails with a key-not-found error; (iv) when the qualifying entry does not
decode, it fails with a decode error — so the descriptor is returned
exactly in case (i). -/
theorem internalRangeLookup_spec (r : ExecState) (key : Key) (rep0 : Reply) :
    bytesHasPrefix key KeyMetaPrefix = true →
    keyLt key r.Meta.Desc.EndKey = true →
    KeyMeta1Prefix.length ≤ key.length →
    ((∀ (kv : Key × EVal) (d : RangeDescriptor),
       r.engine.scanToMax (NextKey key) 1 = .ok [kv] →
       bytesHasPrefix kv.1 (key.take KeyMeta1Prefix.length) = true →
       gobDecodeRangeDescriptor (kv.2.getD []) = some d →
       keyLt key d.StartKey = false →
       runInternalRangeLookup r key rep0 =
         some (r, { rep0 with payload := .rangeLookupR d kv.1 })) ∧
     (∀ (kv : Key × EVal) (d : RangeDescriptor),
       r.engine.scanToMax (NextKey key) 1 = .ok [kv] →
       bytesHasPrefix kv.1 (key.take KeyMeta1Prefix.length) = true →
       gobDecodeRangeDescriptor (kv.2.getD []) = some d →
       keyLt key d.StartKey = true →
       runInternalRangeLookup r key rep0 =
         some (r, { rep0 with Error := some (.noRangeFound key) })) ∧
     (∀ (kvs : List (Key × EVal)),
       r.engine.scanToMax (NextKey key) 1 = .ok kvs →
       (∀ kv, kvs = [kv] →
         bytesHasPrefix kv.1 (key.take KeyMeta1Prefix.length) = false) →
       runInternalRangeLookup r key rep0 =
         some (r, { rep0 with Error := some (.keyNotFound r.Meta.RangeID) })) ∧
     (∀ (kv : Key × EVal),
       r.engine.scanToMax (NextKey key) 1 = .ok [kv] →
       bytesHasPrefix kv.1 (key.take KeyMeta1Prefix.length) = true →
       gobDecodeRangeDescriptor (kv.2.getD []) = none →
       runInternalRangeLookup r key rep0 =
         some (r, { rep0 with Error := some .decodeFailed }))) := by
  intro h1 h2 h3
  refine ⟨?_, ?_, ?_, ?_⟩
  · intro kv d hscan hpfx hdec hlt
    unfold runInternalRangeLookup
    simp [h1, h2, h3, hscan, hpfx, hdec, hlt]
  · intro kv d hscan hpfx hdec hlt
    unfold runInternalRangeLookup
    simp [h1, h2, h3, hscan, hpfx, hdec, hlt]
  · intro kvs hscan hpfx
    unfold runInternalRangeLookup
    match kvs, hscan with
    | [], hscan => simp [h1, h2, h3, hscan]
    | [kv], hscan => simp [h1, h2, h3, hscan, hpfx kv rfl]
    | kv1 :: kv2 :: rest, hscan => simp [h1, h2, h3, hscan]
  · intro kv hscan hpfx hdec
    unfold runInternalRangeLookup
    simp [h1, h2, h3, hscan, hpfx, hdec]

/-- C6 witness: a concrete metadata lookup finds the next level-1 entry and
returns the stored descriptor together with the key it was found at. -/
theorem internalRangeLookup_spec_witness :
    runInternalRangeLookup c6range c6key (zeroReply .rangeLookupA) =
      some (c6range, { zeroReply .rangeLookupA with
                       payload := .rangeLookupR c6desc c6entryKey }) :=
  (internalRangeLookup_spec c6range c6key (zeroReply .rangeLookupA) (by decide)
      (by decide) (by decide)).1 (c6entryKey, some (encRangeDescriptor c6desc)) c6desc
    rfl (by decide) (by decide) (by decide)

/-! ## C5: configuration-prefix puts and the dirty-flag table -/

/-- C5 (code bug): the dirty-flag bookkeeping never reaches the
configPrefixes table, because both assignments write for-range loop copies
of the slice's struct elements (`cp.dirty = true` at range.go:554,
`cp.dirty = false` at range.go:404).  Evaluated at the failing input: from
a table state with a false accounting flag, a Put under the accounting
prefix leaves the flag false and rebroadcasts nothing — the marking the
claim describes is lost before the rebroadcast check reads it; and from
the table's real (initial, hence perpetual) all-true state, a successful
Put under the accounting prefix rebroadcasts every contained prefix's map,
not just the touched one, and leaves every flag still true — success never
clears a flag.  In both states the Put's own reply reports success. -/
theorem put_dirty_table_never_written :
    ((runPut c5live c5key ⟨some (encAcctConfig ⟨"c"⟩)⟩
          (zeroReply (.putA ⟨some (encAcctConfig ⟨"c"⟩)⟩))).1.dirty =
        ⟨false, false, false⟩ ∧
      (runPut c5live c5key ⟨some (encAcctConfig ⟨"c"⟩)⟩
          (zeroReply (.putA ⟨some (encAcctConfig ⟨"c"⟩)⟩))).1.gossip.log = [] ∧
      (runPut c5live c5key ⟨some (encAcctConfig ⟨"c"⟩)⟩
          (zeroReply (.putA ⟨some (encAcctConfig ⟨"c"⟩)⟩))).2.Error = none) ∧
    ((runPut c5table c5key ⟨some (encAcctConfig ⟨"c"⟩)⟩
          (zeroReply (.putA ⟨some (encAcctConfig ⟨"c"⟩)⟩))).1.dirty =
        ⟨true, true, true⟩ ∧
      (runPut c5table c5key ⟨some (encAcctConfig ⟨"c"⟩)⟩
          (zeroReply (.putA ⟨some (encAcctConfig ⟨"c"⟩)⟩))).1.gossip.log =
        [(KeyConfigAccounting, [⟨[7], .acct ⟨"c"⟩⟩]),
         (KeyConfigPermission, []), (KeyConfigZone, [])] ∧
      (runPut c5table c5key ⟨some (encAcctConfig ⟨"c"⟩)⟩
          (zeroReply (.putA ⟨some (encAcctConfig ⟨"c"⟩)⟩))).2.Error = none) := by
  decide

end Storage
